import Mathlib

/-!
Verification of the itty-packager release pipeline (`lib/commands/publish.js`,
`lib/commands/release.js`) against its natural-language specification.

JavaScript strings are modelled as `List Char`.  The string primitives the
source uses (`split`, `includes`, `replace` with a string pattern, `parseInt`,
`Number`, `trim`, template-literal rendering of numbers) are given executable
models below, restricted where noted to the input fragment that actually
arises in this code base (decimal digit strings, plain ASCII text).
-/

/-- Abbreviation: the character list of a string literal. -/
def cs (s : String) : List Char := s.data

/-- Boolean prefix test on character lists (JS `String.prototype.startsWith`). -/
def lpre : List Char → List Char → Bool
  | [], _ => true
  | _ :: _, [] => false
  | a :: as, b :: bs => if a = b then lpre as bs else false

/-- Boolean substring test (JS `String.prototype.includes`). -/
def lsub (s : List Char) : List Char → Bool
  | [] => lpre s []
  | x :: xs => lpre s (x :: xs) || lsub s xs

/-- Fuel-driven worker for `jsSplit`; fuel `≥ length` makes it total and keeps
it structurally recursive so that concrete inputs evaluate by `decide`. -/
def jsSplitGo (h : Char) (t : List Char) : Nat → List Char → List (List Char)
  | _, [] => [[]]
  | 0, l => [l]
  | fuel + 1, x :: xs =>
    if lpre (h :: t) (x :: xs) then
      [] :: jsSplitGo h t fuel (xs.drop t.length)
    else
      match jsSplitGo h t fuel xs with
      | [] => [[x]]
      | m :: ms => (x :: m) :: ms

/-- JS `String.prototype.split` with the non-empty separator `h :: t`. -/
def jsSplit (h : Char) (t : List Char) (l : List Char) : List (List Char) :=
  jsSplitGo h t l.length l

theorem lpre_iff {s l : List Char} : lpre s l = true ↔ s <+: l := by
  induction s generalizing l with
  | nil => simp [lpre]
  | cons a as ih =>
    cases l with
    | nil => simp [lpre]
    | cons b bs =>
      by_cases hab : a = b
      · subst hab
        simp [lpre, ih, List.cons_prefix_cons]
      · simp [lpre, hab, List.cons_prefix_cons]

theorem lsub_iff {s l : List Char} : lsub s l = true ↔ s <:+: l := by
  induction l with
  | nil =>
    simp [lsub, lpre_iff, List.prefix_nil, List.infix_nil]
  | cons x xs ih =>
    simp only [lsub, Bool.or_eq_true, lpre_iff, ih]
    constructor
    · rintro (h | h)
      · exact h.isInfix
      · exact h.trans ⟨[x], [], by simp⟩
    · rintro ⟨u, w, huw⟩
      cases u with
      | nil => exact Or.inl ⟨w, by simpa using huw⟩
      | cons a u2 =>
        right
        refine ⟨u2, w, ?_⟩
        have := congrArg List.tail huw
        simpa using this

theorem mem_head_of_occurrence {c : Char} {r l : List Char} (h : (c :: r) <:+: l) :
    c ∈ l := by
  rcases h with ⟨u, w, huw⟩
  subst huw
  simp

/-- Fuel irrelevance: with enough fuel `jsSplitGo` computes `jsSplit`. -/
theorem jsSplitGo_eq {h : Char} {t : List Char} :
    ∀ fuel l, l.length ≤ fuel → jsSplitGo h t fuel l = jsSplit h t l := by
  intro fuel
  induction fuel using Nat.strong_induction_on with
  | _ fuel ih =>
    intro l hl
    cases l with
    | nil => cases fuel <;> rfl
    | cons x xs =>
      cases fuel with
      | zero => simp at hl
      | succ n =>
        have hxs : xs.length ≤ n := by simpa using hl
        have hdrop : (xs.drop t.length).length ≤ xs.length := by
          have := List.length_drop t.length xs
          omega
        show jsSplitGo h t (n + 1) (x :: xs) = jsSplitGo h t (xs.length + 1) (x :: xs)
        simp only [jsSplitGo]
        by_cases hp : lpre (h :: t) (x :: xs) = true
        · rw [if_pos hp, if_pos hp, ih n (Nat.lt_succ_self n) _ (Nat.le_trans hdrop hxs),
            ih xs.length (Nat.lt_succ_of_le hxs) _ hdrop]
        · rw [if_neg hp, if_neg hp, ih n (Nat.lt_succ_self n) _ hxs,
            ih xs.length (Nat.lt_succ_of_le hxs) _ (Nat.le_refl _)]

/-- One-step unfolding of `jsSplit` on a cons cell. -/
theorem jsSplit_cons (h : Char) (t : List Char) (x : Char) (xs : List Char) :
    jsSplit h t (x :: xs) =
      if lpre (h :: t) (x :: xs) then
        [] :: jsSplit h t (xs.drop t.length)
      else
        match jsSplit h t xs with
        | [] => [[x]]
        | m :: ms => (x :: m) :: ms := by
  show jsSplitGo h t (xs.length + 1) (x :: xs) = _
  simp only [jsSplitGo]
  by_cases hp : lpre (h :: t) (x :: xs) = true
  · have h1 : (xs.drop t.length).length ≤ xs.length := by
      have := List.length_drop t.length xs
      omega
    rw [if_pos hp, if_pos hp, jsSplitGo_eq xs.length _ h1]
  · rw [if_neg hp, if_neg hp]
    rfl

/-- Splitting a list that does not contain the separator returns it whole. -/
theorem jsSplit_of_not_sub {h : Char} {t l : List Char}
    (hn : lsub (h :: t) l = false) : jsSplit h t l = [l] := by
  induction l with
  | nil => rfl
  | cons x xs ih =>
    have hx : ¬lpre (h :: t) (x :: xs) = true := by
      intro hp
      exact absurd (show lsub (h :: t) (x :: xs) = true by simp [lsub, hp]) (by simp [hn])
    have hxs : lsub (h :: t) xs = false := by
      cases hp : lsub (h :: t) xs
      · rfl
      · exact absurd (show lsub (h :: t) (x :: xs) = true by simp [lsub, hp]) (by simp [hn])
    rw [jsSplit_cons, if_neg hx, ih hxs]

/-- Splitting at the first separator occurrence: if the separator's head char
does not occur in `p`, the split peels off `p` before the separator. -/
theorem jsSplit_append {h : Char} {t : List Char} :
    ∀ {p : List Char} (suf : List Char), h ∉ p →
      jsSplit h t (p ++ (h :: t) ++ suf) = p :: jsSplit h t suf := by
  intro p
  induction p with
  | nil =>
    intro suf _
    show jsSplit h t (h :: (t ++ suf)) = [] :: jsSplit h t suf
    have hp : lpre (h :: t) (h :: (t ++ suf)) = true := lpre_iff.mpr ⟨suf, by simp⟩
    rw [jsSplit_cons, if_pos hp, List.drop_left]
  | cons a p2 ih =>
    intro suf hmem
    have ha : a ≠ h := fun hc => hmem (by simp [hc])
    have hp2 : h ∉ p2 := fun hc => hmem (by simp [hc])
    have hpre : ¬lpre (h :: t) (a :: (p2 ++ (h :: t) ++ suf)) = true := by
      intro hp
      rcases lpre_iff.mp hp with ⟨w, hw⟩
      exact ha.symm (by simpa using congrArg List.head? hw)
    show jsSplit h t (a :: (p2 ++ (h :: t) ++ suf)) = (a :: p2) :: jsSplit h t suf
    rw [jsSplit_cons, if_neg hpre, ih suf hp2]

/-- The decimal digit character for `d < 10`. -/
def dchar : Nat → Char
  | 0 => '0' | 1 => '1' | 2 => '2' | 3 => '3' | 4 => '4'
  | 5 => '5' | 6 => '6' | 7 => '7' | 8 => '8' | _ => '9'

/-- Numeric value of a digit character. -/
def dval (c : Char) : Nat := c.toNat - 48

/-- Fuel-driven little-endian digit expansion (fuel `≥ n` suffices). -/
def natToCharsGo : Nat → Nat → List Char
  | 0, _ => []
  | fuel + 1, n => if n = 0 then [] else dchar (n % 10) :: natToCharsGo fuel (n / 10)

/-- Decimal rendering of a natural number, as JS renders numbers in template
literals. -/
def natToChars (n : Nat) : List Char :=
  if n = 0 then ['0'] else (natToCharsGo n n).reverse

/-- Value of a string of decimal digit characters. -/
def digitsVal (l : List Char) : Nat := Nat.ofDigits 10 (l.map dval).reverse

theorem dval_dchar {d : Nat} (hd : d < 10) : dval (dchar d) = d := by
  interval_cases d <;> decide

theorem isDigit_dchar {d : Nat} (hd : d < 10) : (dchar d).isDigit = true := by
  interval_cases d <;> decide

theorem natToCharsGo_eq {fuel n : Nat} (h : n ≤ fuel) :
    natToCharsGo fuel n = (Nat.digits 10 n).map dchar := by
  induction fuel generalizing n with
  | zero =>
    have : n = 0 := Nat.le_zero.mp h
    subst this
    simp [natToCharsGo]
  | succ fuel ih =>
    by_cases hn : n = 0
    · subst hn
      simp [natToCharsGo]
    · have hdiv : n / 10 ≤ fuel := by
        have h1 : n / 10 < n := Nat.div_lt_self (Nat.pos_of_ne_zero hn) (by norm_num)
        omega
      rw [show natToCharsGo (fuel + 1) n = dchar (n % 10) :: natToCharsGo fuel (n / 10) by
            simp [natToCharsGo, hn],
        ih hdiv, Nat.digits_def' (by norm_num : (1 : Nat) < 10) (Nat.pos_of_ne_zero hn)]
      rfl

theorem natToChars_eq {n : Nat} (hn : n ≠ 0) :
    natToChars n = ((Nat.digits 10 n).map dchar).reverse := by
  simp [natToChars, hn, natToCharsGo_eq (Nat.le_refl n)]

theorem mem_natToChars_isDigit {n : Nat} {c : Char} (h : c ∈ natToChars n) :
    c.isDigit = true := by
  by_cases hn : n = 0
  · subst hn
    simp [natToChars] at h
    subst h
    decide
  · rw [natToChars_eq hn] at h
    rw [List.mem_reverse, List.mem_map] at h
    rcases h with ⟨d, hd, rfl⟩
    exact isDigit_dchar (Nat.digits_lt_base (by norm_num) hd)

theorem natToChars_ne_nil (n : Nat) : natToChars n ≠ [] := by
  by_cases hn : n = 0
  · subst hn
    decide
  · rw [natToChars_eq hn]
    simp [Nat.digits_ne_nil_iff_ne_zero, hn]

theorem natToChars_all_isDigit (n : Nat) : (natToChars n).all Char.isDigit = true := by
  rw [List.all_eq_true]
  intro c hc
  exact mem_natToChars_isDigit hc

theorem digitsVal_natToChars (n : Nat) : digitsVal (natToChars n) = n := by
  by_cases hn : n = 0
  · subst hn
    decide
  · rw [natToChars_eq hn]
    unfold digitsVal
    rw [List.map_reverse, List.reverse_reverse, List.map_map]
    have hmap : (Nat.digits 10 n).map (dval ∘ dchar) = Nat.digits 10 n := by
      conv_rhs => rw [← List.map_id (Nat.digits 10 n)]
      apply List.map_congr_left
      intro d hd
      exact dval_dchar (Nat.digits_lt_base (by norm_num) hd)
    rw [hmap]
    exact Nat.ofDigits_digits 10 n

/-- A JavaScript number as it arises in `versionBump`: either an integer value
or `NaN`.  (`Number(...)` of the digit-or-garbage strings occurring here never
produces fractions or negatives, so a `Nat`-or-`NaN` model is faithful on this
fragment.) -/
inductive JSNum
  | num (n : Nat)
  | nan
deriving DecidableEq, Repr

/-- Model of JS `Number(s)` on the fragment used by `versionBump`: the empty
string converts to `0`, a pure decimal digit string to its value, and anything
else to `NaN`. -/
def jsNumber (l : List Char) : JSNum :=
  if l = [] then .num 0
  else if l.all Char.isDigit then .num (digitsVal l)
  else .nan

/-- JS `x + 1` where `x` is a number or `undefined` (an out-of-range array
index): any non-number operand yields `NaN`. -/
def jsAdd1 : Option JSNum → JSNum
  | some (.num n) => .num (n + 1)
  | _ => .nan

/-- Template-literal rendering of a JS number. -/
def jsRenderNum : JSNum → List Char
  | .num n => natToChars n
  | .nan => cs "NaN"

/-- Template-literal rendering of an indexing result (`undefined` when the
index is out of range). -/
def jsRenderIdx : Option JSNum → List Char
  | some x => jsRenderNum x
  | none => cs "undefined"

/-- Model of JS `parseInt(x) || 0` where `x` is a string or `undefined`:
the value of the maximal leading digit run, and `0` when there is none
(`parseInt` gives `NaN` there, which `|| 0` collapses to `0`). -/
def jsParseIntOr0 : Option (List Char) → Nat
  | none => 0
  | some l =>
    let ds := l.takeWhile Char.isDigit
    if ds = [] then 0 else digitsVal ds

/-- Function `versionBump(currentVersion, type)` from `lib/commands/publish.js`
(`releaseCommand` variant, lines 350-372), translated clause by clause:
`split('.')`, `map(Number)`, the `major`/`minor`/`patch` switch with template
literals, and the default branch with `includes`, `split`, and
`parseInt(...) || 0`. -/
def versionBumpL (currentVersion type : List Char) : List Char :=
  let parts := (jsSplit '.' [] currentVersion).map jsNumber
  if type = cs "major" then
    jsRenderNum (jsAdd1 (parts.get? 0)) ++ cs ".0.0"
  else if type = cs "minor" then
    jsRenderIdx (parts.get? 0) ++ cs "." ++ jsRenderNum (jsAdd1 (parts.get? 1)) ++ cs ".0"
  else if type = cs "patch" then
    jsRenderIdx (parts.get? 0) ++ cs "." ++ jsRenderIdx (parts.get? 1) ++ cs "." ++
      jsRenderNum (jsAdd1 (parts.get? 2))
  else
    if lsub ('-' :: type) currentVersion then
      let pieces := jsSplit '-' (type ++ ['.']) currentVersion
      let base := pieces.headD []
      let prereleaseNum := jsParseIntOr0 (pieces.get? 1)
      base ++ '-' :: (type ++ '.' :: natToChars (prereleaseNum + 1))
    else
      currentVersion ++ '-' :: (type ++ cs ".0")

/-- String-level wrapper for `versionBump`. -/
def versionBump (currentVersion type : String) : String :=
  String.mk (versionBumpL currentVersion.data type.data)

theorem jsNumber_natToChars (n : Nat) : jsNumber (natToChars n) = .num n := by
  rw [jsNumber, if_neg (natToChars_ne_nil n), if_pos (natToChars_all_isDigit n),
    digitsVal_natToChars]

theorem takeWhile_isDigit_natToChars (n : Nat) :
    (natToChars n).takeWhile Char.isDigit = natToChars n := by
  rw [List.takeWhile_eq_self_iff]
  intro c hc
  exact mem_natToChars_isDigit hc

theorem jsParseIntOr0_natToChars (n : Nat) :
    jsParseIntOr0 (some (natToChars n)) = n := by
  rw [jsParseIntOr0]
  simp only [takeWhile_isDigit_natToChars]
  rw [if_neg (natToChars_ne_nil n), digitsVal_natToChars]

theorem lsub_eq_false_of_not_mem {c : Char} {r l : List Char} (h : c ∉ l) :
    lsub (c :: r) l = false := by
  cases hs : lsub (c :: r) l
  · rfl
  · exact absurd (mem_head_of_occurrence (lsub_iff.mp hs)) h

theorem not_mem_natToChars {c : Char} (hc : c.isDigit = false) (n : Nat) :
    c ∉ natToChars n := by
  intro h
  rw [mem_natToChars_isDigit h] at hc
  exact Bool.noConfusion hc

/-- If a separator-terminated list is a prefix of `tg ++ '.' :: n` and neither
`tg` nor `n` contains a dot, the part before the separator is exactly `tg`. -/
theorem eq_of_dotted_start :
    ∀ {k tg n : List Char}, '.' ∉ tg → '.' ∉ n →
      (k ++ ['.']) <+: (tg ++ '.' :: n) → k = tg := by
  intro k tg
  induction tg generalizing k with
  | nil =>
    intro n _ hn hp
    cases k with
    | nil => rfl
    | cons a k2 =>
      rcases hp with ⟨w, hw⟩
      simp only [List.nil_append, List.cons_append, List.append_assoc] at hw
      have ha : a = '.' := (List.cons.injEq _ _ _ _).mp hw |>.1
      have htail : k2 ++ ['.'] ++ w = n := by
        have := (List.cons.injEq _ _ _ _).mp hw |>.2
        simpa [List.append_assoc] using this
      exact absurd (htail ▸ (by simp : '.' ∈ k2 ++ ['.'] ++ w)) hn
  | cons b tg2 ih =>
    intro n htg hn hp
    have hb : b ≠ '.' := fun hc => htg (by simp [hc])
    have htg2 : '.' ∉ tg2 := fun hc => htg (by simp [hc])
    cases k with
    | nil =>
      rcases hp with ⟨w, hw⟩
      simp only [List.nil_append, List.cons_append] at hw
      exact absurd ((List.cons.injEq _ _ _ _).mp hw |>.1.symm) hb
    | cons a k2 =>
      rcases hp with ⟨w, hw⟩
      simp only [List.cons_append] at hw
      have hab : a = b := (List.cons.injEq _ _ _ _).mp hw |>.1
      have htail : (k2 ++ ['.']) <+: (tg2 ++ '.' :: n) :=
        ⟨w, by simpa using (List.cons.injEq _ _ _ _).mp hw |>.2⟩
      rw [hab, ih htg2 hn htail]

/-- An occurrence of `c :: r` inside `xs ++ c :: ys`, where `c` occurs in
neither side, must start exactly at the distinguished `c`. -/
theorem rest_of_single_occurrence :
    ∀ {c : Char} {r xs ys : List Char}, c ∉ xs → c ∉ ys →
      ((c :: r) <:+: (xs ++ c :: ys)) → r <+: ys := by
  intro c r xs
  induction xs generalizing r with
  | nil =>
    intro ys _ hys h
    rcases h with ⟨u, w, huw⟩
    cases u with
    | nil =>
      refine ⟨w, ?_⟩
      simpa using huw
    | cons a u2 =>
      simp only [List.nil_append, List.cons_append, List.append_assoc] at huw
      have h2 := (List.cons.injEq _ _ _ _).mp huw |>.2
      have hmem : c ∈ ys := h2 ▸ (by simp : c ∈ u2 ++ c :: (r ++ w))
      exact absurd hmem hys
  | cons x xs2 ih =>
    intro ys hxs hys h
    have hx : x ≠ c := fun hc => hxs (by simp [hc])
    have hxs2 : c ∉ xs2 := fun hc => hxs (by simp [hc])
    rcases h with ⟨u, w, huw⟩
    cases u with
    | nil =>
      simp only [List.nil_append, List.cons_append] at huw
      exact absurd ((List.cons.injEq _ _ _ _).mp huw |>.1.symm) hx
    | cons a u2 =>
      simp only [List.cons_append] at huw
      have htail : (c :: r) <:+: (xs2 ++ c :: ys) :=
        ⟨u2, w, by simpa using (List.cons.injEq _ _ _ _).mp huw |>.2⟩
      exact ih hxs2 hys htail

/-- Splitting on dots around two dot-free separators. -/
theorem jsSplit_dot_triple {A B C : List Char} (hA : '.' ∉ A) (hB : '.' ∉ B)
    (hC : '.' ∉ C) :
    jsSplit '.' [] (A ++ '.' :: (B ++ '.' :: C)) = [A, B, C] := by
  have h1 := @jsSplit_append '.' [] A (B ++ '.' :: C) hA
  have h2 := @jsSplit_append '.' [] B C hB
  have h3 := @jsSplit_of_not_sub '.' [] C (@lsub_eq_false_of_not_mem '.' [] C hC)
  simp only [List.append_assoc, List.singleton_append] at h1 h2
  rw [h1, h2, h3]

/-- A well-formed version in the sense of the specification: three numeric
components and an optional pre-release pair `(tag, counter)`. -/
structure VVer where
  a : Nat
  b : Nat
  c : Nat
  pre : Option (List Char × Nat)
deriving DecidableEq, Repr

/-- The `a.b.c` part of a rendered version. -/
def renderTriple (v : VVer) : List Char :=
  natToChars v.a ++ '.' :: (natToChars v.b ++ '.' :: natToChars v.c)

/-- Rendering of a well-formed version as a string. -/
def renderV (v : VVer) : List Char :=
  match v.pre with
  | none => renderTriple v
  | some (tg, n) => renderTriple v ++ '-' :: (tg ++ '.' :: natToChars n)

/-- Side conditions making a `VVer` denote a version of the specified format:
the pre-release tag is non-empty and free of dots and hyphens. -/
def VOK : VVer → Prop
  | ⟨_, _, _, none⟩ => True
  | ⟨_, _, _, some (tg, _)⟩ => tg ≠ [] ∧ '.' ∉ tg ∧ '-' ∉ tg

/-- The specification's reference bump algorithm, written from the spec text:
`major`/`minor`/`patch` bump the corresponding numeric component; any other
kind increments the trailing counter when the version already carries a
pre-release segment with exactly that tag, and otherwise appends `-kind.0`
to the unmodified version. -/
def specBump (v : VVer) (kind : List Char) : List Char :=
  if kind = cs "major" then natToChars (v.a + 1) ++ cs ".0.0"
  else if kind = cs "minor" then natToChars v.a ++ cs "." ++ natToChars (v.b + 1) ++ cs ".0"
  else if kind = cs "patch" then
    natToChars v.a ++ cs "." ++ natToChars v.b ++ cs "." ++ natToChars (v.c + 1)
  else
    match v.pre with
    | none => renderV v ++ '-' :: (kind ++ cs ".0")
    | some (tg, n) =>
      if kind = tg then renderTriple v ++ '-' :: (tg ++ '.' :: natToChars (n + 1))
      else renderV v ++ '-' :: (kind ++ cs ".0")

/-- What the code actually computes for a non-standard kind: as `specBump`,
except that when the version contains the substring `-kind` without carrying a
`-kind.` pre-release segment (for instance when the existing tag has `kind` as
a proper prefix), the appended counter starts at `1` instead of `0`. -/
def amendedBump (v : VVer) (kind : List Char) : List Char :=
  match v.pre with
  | none => renderV v ++ '-' :: (kind ++ cs ".0")
  | some (tg, n) =>
    if kind = tg then renderTriple v ++ '-' :: (tg ++ '.' :: natToChars (n + 1))
    else if lsub ('-' :: kind) (renderV v) then renderV v ++ '-' :: (kind ++ cs ".1")
    else renderV v ++ '-' :: (kind ++ cs ".0")

/-- Claim C2 as stated: `versionBump` agrees with the reference algorithm on
every input satisfying the version-format precondition. -/
def VersionBumperClaim : Prop :=
  ∀ v : VVer, VOK v →
    (∀ kind, (kind = cs "major" ∨ kind = cs "minor" ∨ kind = cs "patch") →
      v.pre = none → versionBumpL (renderV v) kind = specBump v kind) ∧
    (∀ kind, kind ≠ cs "major" → kind ≠ cs "minor" → kind ≠ cs "patch" →
      versionBumpL (renderV v) kind = specBump v kind)

theorem dash_not_mem_triple (a b c : Nat) :
    '-' ∉ natToChars a ++ '.' :: (natToChars b ++ '.' :: natToChars c) := by
  intro h
  simp only [List.mem_append, List.mem_cons] at h
  rcases h with h | h | h | h | h
  · exact not_mem_natToChars (by decide) a h
  · exact absurd h (by decide)
  · exact not_mem_natToChars (by decide) b h
  · exact absurd h (by decide)
  · exact not_mem_natToChars (by decide) c h

theorem split_dot_triple_parts (a b c : Nat) :
    jsSplit '.' [] (natToChars a ++ '.' :: (natToChars b ++ '.' :: natToChars c)) =
      [natToChars a, natToChars b, natToChars c] :=
  jsSplit_dot_triple (not_mem_natToChars (by decide) a)
    (not_mem_natToChars (by decide) b) (not_mem_natToChars (by decide) c)

theorem versionBump_major (a b c : Nat) :
    versionBumpL (natToChars a ++ '.' :: (natToChars b ++ '.' :: natToChars c))
      (cs "major") = natToChars (a + 1) ++ cs ".0.0" := by
  simp [versionBumpL, split_dot_triple_parts, jsNumber_natToChars, jsAdd1, jsRenderNum]

theorem versionBump_minor (a b c : Nat) :
    versionBumpL (natToChars a ++ '.' :: (natToChars b ++ '.' :: natToChars c))
      (cs "minor") = natToChars a ++ cs "." ++ natToChars (b + 1) ++ cs ".0" := by
  have hne : cs "minor" ≠ cs "major" := by decide
  simp [versionBumpL, split_dot_triple_parts, jsNumber_natToChars, jsAdd1, jsRenderNum,
    jsRenderIdx, hne]

theorem versionBump_patch (a b c : Nat) :
    versionBumpL (natToChars a ++ '.' :: (natToChars b ++ '.' :: natToChars c))
      (cs "patch") = natToChars a ++ cs "." ++ natToChars b ++ cs "." ++ natToChars (c + 1) := by
  have hne1 : cs "patch" ≠ cs "major" := by decide
  have hne2 : cs "patch" ≠ cs "minor" := by decide
  simp [versionBumpL, split_dot_triple_parts, jsNumber_natToChars, jsAdd1, jsRenderNum,
    jsRenderIdx, hne1, hne2]

theorem versionBump_default_none {kind : List Char} (a b c : Nat)
    (h1 : kind ≠ cs "major") (h2 : kind ≠ cs "minor") (h3 : kind ≠ cs "patch") :
    versionBumpL (natToChars a ++ '.' :: (natToChars b ++ '.' :: natToChars c)) kind =
      natToChars a ++ '.' :: (natToChars b ++ '.' :: natToChars c) ++ '-' :: (kind ++ cs ".0") := by
  have hsub := @lsub_eq_false_of_not_mem '-' kind _ (dash_not_mem_triple a b c)
  simp [versionBumpL, h1, h2, h3, hsub]


theorem versionBump_pre_same {T tg : List Char} (n : Nat) (hT : '-' ∉ T)
    (h1 : tg ≠ cs "major") (h2 : tg ≠ cs "minor") (h3 : tg ≠ cs "patch") :
    versionBumpL (T ++ '-' :: (tg ++ '.' :: natToChars n)) tg =
      T ++ '-' :: (tg ++ '.' :: natToChars (n + 1)) := by
  have hshape : T ++ '-' :: (tg ++ '.' :: natToChars n) =
      T ++ ('-' :: (tg ++ ['.'])) ++ natToChars n := by
    simp [List.append_assoc]
  have hsub : lsub ('-' :: tg) (T ++ '-' :: (tg ++ '.' :: natToChars n)) = true := by
    rw [lsub_iff]
    exact ⟨T, '.' :: natToChars n, by simp [List.append_assoc]⟩
  have hsplit : jsSplit '-' (tg ++ ['.']) (T ++ '-' :: (tg ++ '.' :: natToChars n)) =
      [T, natToChars n] := by
    rw [hshape, @jsSplit_append '-' (tg ++ ['.']) T (natToChars n) hT,
      @jsSplit_of_not_sub '-' (tg ++ ['.']) (natToChars n)
        (lsub_eq_false_of_not_mem (not_mem_natToChars (by decide) n))]
  simp [versionBumpL, h1, h2, h3, hsub, hsplit, jsParseIntOr0_natToChars]

theorem versionBump_pre_other {T tg kind : List Char} (n : Nat) (hT : '-' ∉ T)
    (hdot : '.' ∉ tg) (hdash : '-' ∉ tg) (hne : kind ≠ tg)
    (h1 : kind ≠ cs "major") (h2 : kind ≠ cs "minor") (h3 : kind ≠ cs "patch") :
    versionBumpL (T ++ '-' :: (tg ++ '.' :: natToChars n)) kind =
      if lsub ('-' :: kind) (T ++ '-' :: (tg ++ '.' :: natToChars n)) then
        T ++ '-' :: (tg ++ '.' :: natToChars n) ++ '-' :: (kind ++ cs ".1")
      else
        T ++ '-' :: (tg ++ '.' :: natToChars n) ++ '-' :: (kind ++ cs ".0") := by
  cases hsub : lsub ('-' :: kind) (T ++ '-' :: (tg ++ '.' :: natToChars n)) with
  | false => simp [versionBumpL, h1, h2, h3, hsub]
  | true =>
    have hys : '-' ∉ tg ++ '.' :: natToChars n := by
      intro hm
      simp only [List.mem_append, List.mem_cons] at hm
      rcases hm with hm | hm | hm
      · exact hdash hm
      · exact absurd hm (by decide)
      · exact not_mem_natToChars (by decide) n hm
    have hnotinf : ¬ (('-' :: (kind ++ ['.'])) <:+: (T ++ '-' :: (tg ++ '.' :: natToChars n))) := by
      intro hinf
      have hrest := rest_of_single_occurrence hT hys hinf
      exact hne (eq_of_dotted_start hdot (not_mem_natToChars (by decide) n) hrest)
    have hsplitV : jsSplit '-' (kind ++ ['.']) (T ++ '-' :: (tg ++ '.' :: natToChars n)) =
        [T ++ '-' :: (tg ++ '.' :: natToChars n)] := by
      apply jsSplit_of_not_sub
      cases hs : lsub ('-' :: (kind ++ ['.'])) (T ++ '-' :: (tg ++ '.' :: natToChars n)) with
      | false => rfl
      | true => exact absurd (lsub_iff.mp hs) hnotinf
    have hone : natToChars (0 + 1) = ['1'] := by decide
    have hdot1 : cs ".1" = ['.', '1'] := by decide
    simp [versionBumpL, h1, h2, h3, hsub, hsplitV, jsParseIntOr0, hone, hdot1]

/-- Claim C2 refuted: the reference algorithm and `versionBump` disagree on the
valid version `1.2.3-ab.0` with kind `a` (the existing tag `ab` merely has `a`
as a prefix, yet the code's `includes` test fires and appends `-a.1`). -/
theorem versionBump_spec_claim_false : ¬ VersionBumperClaim := by
  intro hclaim
  have h := (hclaim ⟨1, 2, 3, some (cs "ab", 0)⟩ ⟨by decide, by decide, by decide⟩).2
    (cs "a") (by decide) (by decide) (by decide)
  revert h
  decide

/-- Claim C2, amended: on well-formed versions, `versionBump` agrees with the
reference algorithm for the standard kinds on plain triples and for any
non-standard kind whose `-kind` does not collide with the existing tag; when
the version contains `-kind` without a `-kind.` segment, the appended counter
starts at `1` instead of the specified `0` (see `amendedBump`). -/
theorem versionBump_amended :
    ∀ v : VVer, VOK v →
      (∀ kind, (kind = cs "major" ∨ kind = cs "minor" ∨ kind = cs "patch") →
        v.pre = none → versionBumpL (renderV v) kind = specBump v kind) ∧
      (∀ kind, kind ≠ cs "major" → kind ≠ cs "minor" → kind ≠ cs "patch" →
        versionBumpL (renderV v) kind = amendedBump v kind) := by
  rintro ⟨a, b, c, pre⟩ hok
  constructor
  · rintro kind hk hpre
    have hpre2 : pre = none := hpre
    subst hpre2
    rcases hk with rfl | rfl | rfl
    · simpa [renderV, renderTriple, specBump] using versionBump_major a b c
    · have hne : cs "minor" ≠ cs "major" := by decide
      simpa [renderV, renderTriple, specBump, hne] using versionBump_minor a b c
    · have hne1 : cs "patch" ≠ cs "major" := by decide
      have hne2 : cs "patch" ≠ cs "minor" := by decide
      simpa [renderV, renderTriple, specBump, hne1, hne2] using versionBump_patch a b c
  · intro kind h1 h2 h3
    match pre, hok with
    | none, _ =>
      simpa [renderV, renderTriple, amendedBump] using
        versionBump_default_none a b c h1 h2 h3
    | some (tg, n), hok2 =>
      obtain ⟨htgne, hdot, hdash⟩ := hok2
      by_cases hkt : kind = tg
      · subst hkt
        simpa [renderV, renderTriple, amendedBump] using
          versionBump_pre_same n (dash_not_mem_triple a b c) h1 h2 h3
      · have hother :=
          versionBump_pre_other n (dash_not_mem_triple a b c) hdot hdash hkt h1 h2 h3
        simp only [renderV, renderTriple, amendedBump, if_neg hkt]
        rw [hother]

/-- Witness for `versionBump_amended` at a concrete well-formed input. -/
theorem versionBump_amended_witness :
    versionBumpL (cs "1.2.3-alpha.0") (cs "alpha") = cs "1.2.3-alpha.1" := by
  have h := (versionBump_amended ⟨1, 2, 3, some (cs "alpha", 0)⟩
      ⟨by decide, by decide, by decide⟩).2 (cs "alpha") (by decide) (by decide) (by decide)
  have h1 : renderV ⟨1, 2, 3, some (cs "alpha", 0)⟩ = cs "1.2.3-alpha.0" := by decide
  have h2 : amendedBump ⟨1, 2, 3, some (cs "alpha", 0)⟩ (cs "alpha") = cs "1.2.3-alpha.1" := by
    decide
  rw [h1, h2] at h
  exact h

/-- Non-empty all-digit character list. -/
def isDigitsL (l : List Char) : Bool := !l.isEmpty && l.all Char.isDigit

/-- Checker for `a.b.c` with numeric components. -/
def isTripleL (l : List Char) : Bool :=
  match jsSplit '.' [] l with
  | [x, y, z] => isDigitsL x && isDigitsL y && isDigitsL z
  | _ => false

/-- Decidable checker for the specification's version format: three
dot-separated non-negative integers optionally followed by a hyphen, a
non-empty tag, a dot and a counter. -/
def isValidVersionL (l : List Char) : Bool :=
  match jsSplit '-' [] l with
  | [core] => isTripleL core
  | [core, pr] =>
    isTripleL core &&
      (match jsSplit '.' [] pr with
       | [tg, n] => !tg.isEmpty && isDigitsL n
       | _ => false)
  | _ => false

/-- String-level version-format checker. -/
def isValidVersion (s : String) : Bool := isValidVersionL s.data

/-- Result type for claim C3: a returned string, or the `InvalidVersionFormat`
failure the specification promises on malformed input. -/
inductive BumpResult
  | str (s : String)
  | invalidVersionFormat
deriving DecidableEq, Repr

/-- The source `versionBump` contains no validation and no throw path: its
faithful embedding is total and always returns a string. -/
def versionBumpChecked (current type : String) : BumpResult :=
  .str (versionBump current type)

/-- Claim C3 as stated: on every input that fails the version format check,
`versionBump` fails with `InvalidVersionFormat` rather than returning a
string. -/
def VersionBumpFailsClaim : Prop :=
  ∀ current : String, isValidVersion current = false →
    ∀ type : String, versionBumpChecked current type = .invalidVersionFormat

/-- Claim C3 refuted: on the malformed input `"x"` the code returns the string
`"NaN.0.0"` instead of failing. -/
theorem versionBump_no_validation :
    isValidVersion "x" = false ∧ versionBumpChecked "x" "major" = .str "NaN.0.0" ∧
      ¬ VersionBumpFailsClaim := by
  refine ⟨by decide, by decide, fun hcl => ?_⟩
  have h := hcl "x" (by decide) "major"
  rw [show versionBumpChecked "x" "major" = .str "NaN.0.0" by decide] at h
  exact BumpResult.noConfusion h

/-- Claim C3, amended: `versionBump` never fails; it is total and returns a
string on every input, and malformed inputs produce nonsense strings built
from `NaN`/`undefined` components rather than an error. -/
theorem versionBump_total_amended :
    (∀ current type : String, ∃ s, versionBumpChecked current type = .str s) ∧
      isValidVersion "x" = false ∧ versionBump "x" "major" = "NaN.0.0" ∧
      isValidVersion "garbage" = false ∧
      versionBump "garbage" "patch" = "NaN.undefined.NaN" :=
  ⟨fun c t => ⟨versionBump c t, rfl⟩, by decide, by decide, by decide, by decide⟩

/-- JS `String.prototype.replace` with the non-empty string pattern `h :: t`:
replaces the first occurrence only. -/
def jsReplaceFirst (h : Char) (t rep : List Char) : List Char → List Char
  | [] => []
  | x :: xs =>
    if lpre (h :: t) (x :: xs) then rep ++ xs.drop t.length
    else x :: jsReplaceFirst h t rep xs

theorem jsReplaceFirst_of_start {h : Char} {t rep v : List Char}
    (hp : lpre (h :: t) v = true) :
    jsReplaceFirst h t rep v = rep ++ v.drop (t.length + 1) := by
  cases v with
  | nil => exact absurd (lpre_iff.mp hp) (by simp)
  | cons x xs =>
    rw [jsReplaceFirst, if_pos hp]
    rfl

mutual
/-- The export-path tree shape of the specification: a string leaf or a nested
mapping; `null`, booleans and numbers pass through untouched.  (Arrays are
outside the modelled domain, matching the spec's data model.) -/
inductive EVal
  | s (p : List Char)
  | o (m : EntryList)
  | nullv
  | boolv (b : Bool)
  | numv (n : Int)
/-- A mapping from keys to export values, in insertion order. -/
inductive EntryList
  | nil
  | cons (k : List Char) (v : EVal) (rest : EntryList)
end

/-- Function `transformPath` from `transformPackageExports` (`publish.js` lines 11-16):
if the path starts with `./<srcDir>/`, replace that prefix by `./`. -/
def transformPath (srcDir p : List Char) : List Char :=
  if lpre ('.' :: '/' :: (srcDir ++ ['/'])) p then
    jsReplaceFirst '.' ('/' :: (srcDir ++ ['/'])) (cs "./") p
  else p

mutual
/-- Function `transformExportObj` (`publish.js` lines 18-38): strings through
`transformPath`, nested objects recursively, everything else returned
unchanged. -/
def transformExportObj (srcDir : List Char) : EVal → EVal
  | .s p => .s (transformPath srcDir p)
  | .o m => .o (transformEntries srcDir m)
  | .nullv => .nullv
  | .boolv b => .boolv b
  | .numv n => .numv n
/-- The `Object.entries` loop of `transformExportObj` and of the top level of
`transformPackageExports`: rebuild the mapping with each value transformed,
keys unchanged. -/
def transformEntries (srcDir : List Char) : EntryList → EntryList
  | .nil => .nil
  | .cons k v rest => .cons k (transformExportObj srcDir v) (transformEntries srcDir rest)
end

/-- A package manifest for the exports transformation: the optional `exports`
mapping plus all remaining fields, which the function never touches. -/
structure PkgManifest where
  exports : Option EntryList
  rest : List (List Char × List Char)

/-- Function `transformPackageExports` (`publish.js` lines 8-49): when `exports` is
present, rebuild it entry by entry through `transformExportObj` and spread the
result over the manifest; otherwise return the manifest unchanged. -/
def transformPackageExports (pkg : PkgManifest) (srcDir : List Char) : PkgManifest :=
  match pkg.exports with
  | some m => { pkg with exports := some (transformEntries srcDir m) }
  | none => pkg

/-- The specification's leaf transform: a leaf equal to `./<srcDir>/<rest>`
becomes `./<rest>`; other leaves pass through. -/
def stripLeafSpec (srcDir p : List Char) : List Char :=
  if lpre ('.' :: '/' :: (srcDir ++ ['/'])) p then
    cs "./" ++ p.drop ('.' :: '/' :: (srcDir ++ ['/'])).length
  else p

mutual
/-- The specification's `stripPrefix` walk over a value. -/
def stripValSpec (srcDir : List Char) : EVal → EVal
  | .s p => .s (stripLeafSpec srcDir p)
  | .o m => .o (stripEntriesSpec srcDir m)
  | .nullv => .nullv
  | .boolv b => .boolv b
  | .numv n => .numv n
/-- The specification's `stripPrefix` walk over a mapping, preserving keys. -/
def stripEntriesSpec (srcDir : List Char) : EntryList → EntryList
  | .nil => .nil
  | .cons k v rest => .cons k (stripValSpec srcDir v) (stripEntriesSpec srcDir rest)
end

/-- The specification's `stripPrefix` on a manifest: rewrite the exports tree,
keep every other field. -/
def stripExportsSpec (pkg : PkgManifest) (srcDir : List Char) : PkgManifest :=
  match pkg.exports with
  | some m => { pkg with exports := some (stripEntriesSpec srcDir m) }
  | none => pkg

theorem transformPath_eq_spec (srcDir p : List Char) :
    transformPath srcDir p = stripLeafSpec srcDir p := by
  rw [transformPath, stripLeafSpec]
  by_cases hp : lpre ('.' :: '/' :: (srcDir ++ ['/'])) p = true
  · rw [if_pos hp, if_pos hp, jsReplaceFirst_of_start hp]
    rfl
  · rw [if_neg hp, if_neg hp]

mutual
theorem transformExportObj_eq_spec (srcDir : List Char) :
    (v : EVal) → transformExportObj srcDir v = stripValSpec srcDir v
  | .s p => by rw [transformExportObj, stripValSpec, transformPath_eq_spec]
  | .o m => by rw [transformExportObj, stripValSpec, transformEntries_eq_spec srcDir m]
  | .nullv => rfl
  | .boolv b => rfl
  | .numv n => rfl
theorem transformEntries_eq_spec (srcDir : List Char) :
    (m : EntryList) → transformEntries srcDir m = stripEntriesSpec srcDir m
  | .nil => rfl
  | .cons k v rest => by
    rw [transformEntries, stripEntriesSpec, transformExportObj_eq_spec srcDir v,
      transformEntries_eq_spec srcDir rest]
end

/-- Claim C4: `transformPackageExports` is exactly the specification's
`stripPrefix` — every matching string leaf at any depth is stripped, other
leaves and all keys are preserved, and non-`exports` fields are untouched —
together with the spec's two concrete examples for prefix `dist`. -/
theorem transformPackageExports_matches_spec :
    (∀ (pkg : PkgManifest) (srcDir : List Char),
      transformPackageExports pkg srcDir = stripExportsSpec pkg srcDir) ∧
    transformPackageExports
        ⟨some (.cons (cs ".") (.s (cs "./dist/index.mjs")) .nil), [(cs "name", cs "pkg")]⟩
        (cs "dist") =
      ⟨some (.cons (cs ".") (.s (cs "./index.mjs")) .nil), [(cs "name", cs "pkg")]⟩ ∧
    transformPackageExports
        ⟨some (.cons (cs ".")
            (.o (.cons (cs "import") (.s (cs "./dist/a.mjs"))
              (.cons (cs "types") (.s (cs "./dist/a.d.ts")) .nil))) .nil), []⟩
        (cs "dist") =
      ⟨some (.cons (cs ".")
          (.o (.cons (cs "import") (.s (cs "./a.mjs"))
            (.cons (cs "types") (.s (cs "./a.d.ts")) .nil))) .nil), []⟩ := by
  refine ⟨fun pkg srcDir => ?_, rfl, rfl⟩
  rw [transformPackageExports, stripExportsSpec]
  cases hpkg : pkg.exports with
  | none => rfl
  | some m => simp only [transformEntries_eq_spec]

/-- JS whitespace, restricted to the characters that can occur here. -/
def isJsSpace (c : Char) : Bool :=
  c = ' ' || c = '\t' || c = '\n' || c = '\r'

/-- JS `String.prototype.trim`. -/
def jsTrim (l : List Char) : List Char :=
  ((l.dropWhile isJsSpace).reverse.dropWhile isJsSpace).reverse

/-- The `replace` of every double quote by a backslash-escaped quote performed
on commit messages (`publish.js` lines 443 and 501). -/
def escapeQuotes : List Char → List Char
  | [] => []
  | c :: rest => if c = '"' then '\\' :: '"' :: escapeQuotes rest else c :: escapeQuotes rest

/-- State of the `getCommitMessage` editor: accumulated lines, the first-line flag,
the placeholder flag, the current line buffer, and whether the terminal is in
raw mode. -/
structure EdSt where
  inputLines : List (List Char)
  firstInput : Bool
  placeholderCleared : Bool
  buffer : List Char
  rawMode : Bool
deriving DecidableEq, Repr

/-- How a commit-message session settles. -/
inductive EdFin
  | resolvedF (s : List Char)
  | rejectedEscape
  | rejectedCtrlC
deriving DecidableEq, Repr

/-- Result of one keystroke: continue editing or settle. -/
inductive EdStepRes
  | cont (st : EdSt)
  | fin (st : EdSt) (r : EdFin)
deriving DecidableEq, Repr

/-- Function `cleanup()` (`publish.js` lines 486-490): leave raw mode. -/
def cleanupEd (st : EdSt) : EdSt := { st with rawMode := false }

/-- Join `inputLines` with newlines. -/
def joinNL : List (List Char) → List Char
  | [] => []
  | [l] => l
  | l :: ls => l ++ '\n' :: joinNL ls

/-- Function `finishInput()` (`publish.js` lines 492-504). -/
def finishInputMsg (newVersion : List Char) (lines : List (List Char)) : List Char :=
  let customMessage := jsTrim (joinNL lines)
  if customMessage = [] then cs "released v" ++ newVersion
  else cs "released v" ++ newVersion ++ cs " - " ++ escapeQuotes customMessage

/-- Function `handleInput` (`publish.js` lines 401-484) on one keystroke (each chunk is
modelled as a single key; multi-byte escape sequences are out of scope, and the
escape key's deferred timeout is modelled as an immediate rejection).  Every
settling branch applies `cleanupEd` first, exactly as each code path calls
`cleanup()` before `resolve`/`reject`. -/
def edStep (newVersion : List Char) (st : EdSt) (k : Char) : EdStepRes :=
  if k = '\x1b' then .fin (cleanupEd st) .rejectedEscape
  else if k = '\x03' then .fin (cleanupEd st) .rejectedCtrlC
  else if k = '\r' ∨ k = '\n' then
    if st.placeholderCleared = false ∧ st.buffer = [] then
      .fin (cleanupEd st) (.resolvedF (cs "released v" ++ newVersion))
    else if st.firstInput then
      if jsTrim st.buffer = [] then
        .fin (cleanupEd st) (.resolvedF (cs "released v" ++ newVersion))
      else
        .fin (cleanupEd st)
          (.resolvedF (cs "released v" ++ newVersion ++ cs " - " ++
            escapeQuotes (jsTrim st.buffer)))
    else if jsTrim st.buffer = [] then
      .fin (cleanupEd st) (.resolvedF (finishInputMsg newVersion st.inputLines))
    else
      .cont { st with
        inputLines := st.inputLines ++ [st.buffer]
        buffer := []
        firstInput := false }
  else if k = '\x7f' ∨ k = '\x08' then
    if st.placeholderCleared = false then .cont st
    else .cont { st with buffer := st.buffer.dropLast }
  else if ' ' ≤ k ∧ k ≤ '~' then
    .cont { st with placeholderCleared := true, buffer := st.buffer ++ [k] }
  else .cont st

/-- A whole session outcome: settled, or still waiting for input. -/
inductive EdOutcome
  | settled (st : EdSt) (r : EdFin)
  | pending (st : EdSt)
deriving DecidableEq, Repr

/-- Drive the editor over a keystroke sequence. -/
def runEdFrom (newVersion : List Char) (st : EdSt) : List Char → EdOutcome
  | [] => .pending st
  | k :: ks =>
    match edStep newVersion st k with
    | .cont st2 => runEdFrom newVersion st2 ks
    | .fin st2 r => .settled st2 r

/-- Fresh session state: raw mode is acquired up front (`setRawMode(true)`,
`publish.js` line 390). -/
def initEd : EdSt := ⟨[], true, false, [], true⟩

/-- A full `getCommitMessage` interactive session. -/
def runCommitEditor (newVersion keys : List Char) : EdOutcome :=
  runEdFrom newVersion initEd keys

/-- State of `promptOtp`: the code typed so far and the raw-mode flag. -/
structure OtpSt where
  code : List Char
  rawMode : Bool
deriving DecidableEq, Repr

/-- How an OTP session settles. -/
inductive OtpFin
  | resolvedF (code : List Char)
  | rejectedCtrlC
deriving DecidableEq, Repr

/-- Result of one OTP keystroke. -/
inductive OtpStepRes
  | cont (st : OtpSt)
  | fin (st : OtpSt) (r : OtpFin)
deriving DecidableEq, Repr

/-- Function `handleInput` of `promptOtp` (`publish.js` lines 518-546): Ctrl+C rejects,
Enter resolves the trimmed code, backspace deletes, digits append, and every
other key — including Escape — is ignored. -/
def otpStep (st : OtpSt) (k : Char) : OtpStepRes :=
  if k = '\x03' then .fin { st with rawMode := false } .rejectedCtrlC
  else if k = '\r' ∨ k = '\n' then
    .fin { st with rawMode := false } (.resolvedF (jsTrim st.code))
  else if k = '\x7f' ∨ k = '\x08' then .cont { st with code := st.code.dropLast }
  else if '0' ≤ k ∧ k ≤ '9' then .cont { st with code := st.code ++ [k] }
  else .cont st

/-- A whole OTP session outcome. -/
inductive OtpOutcomeE
  | settled (st : OtpSt) (r : OtpFin)
  | pending (st : OtpSt)
deriving DecidableEq, Repr

/-- Drive the OTP editor over a keystroke sequence. -/
def runOtpFrom (st : OtpSt) : List Char → OtpOutcomeE
  | [] => .pending st
  | k :: ks =>
    match otpStep st k with
    | .cont st2 => runOtpFrom st2 ks
    | .fin st2 r => .settled st2 r

/-- A full `promptOtp` session, raw mode acquired up front. -/
def runOtpEditor (keys : List Char) : OtpOutcomeE := runOtpFrom ⟨[], true⟩ keys


/-- One `process.stdout.write` call under a write-fault budget: the first
`fuel` writes of a session succeed and the next one throws (`none`).  This
makes the exception paths of the editors representable: the code wraps none
of its writes in try/finally, so a throwing write propagates out of the
handler and the session ends without `cleanup()` having run. -/
def stdoutWrite : Nat → Option Nat
  | 0 => none
  | fuel + 1 => some fuel

/-- Result of one commit-editor keystroke with the stdout writes explicit:
continue or settle (each carrying the remaining write budget), or crash — an
uncaught exception thrown by a write, recording the state at the throw. -/
inductive EdStepResW
  | cont (st : EdSt) (fuel : Nat)
  | fin (st : EdSt) (fuel : Nat) (r : EdFin)
  | crash (st : EdSt)
deriving DecidableEq, Repr

/-- Function `handleInput` (`publish.js` lines 401-484) with every
`process.stdout.write` call explicit and fallible, refining `edStep` (same
key modelling).  Branch by branch the write/cleanup order of the source is
kept: Escape writes the cancelled line (line 408) before `cleanup()` (409);
Ctrl+C writes (417) before cleanup (418); the skip branch writes (427) before
cleanup (428); the first-line branch writes (436) before cleanup (437) and,
in its empty sub-branch, writes once more after cleanup (440); `finishInput`
writes (494) before cleanup (495); the dead append branch mutates then writes
(456-459); backspace writes only on a non-empty buffer (467-469); a printable
key first triggers the `clearPlaceholder` write (396) when needed, then
echoes (481).  A crash keeps the state as mutated before the throwing write;
in particular a crash inside any settling branch other than line 440 happens
before `cleanupEd`, with raw mode still on. -/
def edStepW (newVersion : List Char) (st : EdSt) (fuel : Nat) (k : Char) : EdStepResW :=
  if k = '\x1b' then
    match stdoutWrite fuel with
    | none => .crash st
    | some f => .fin (cleanupEd st) f .rejectedEscape
  else if k = '\x03' then
    match stdoutWrite fuel with
    | none => .crash st
    | some f => .fin (cleanupEd st) f .rejectedCtrlC
  else if k = '\r' ∨ k = '\n' then
    if st.placeholderCleared = false ∧ st.buffer = [] then
      match stdoutWrite fuel with
      | none => .crash st
      | some f => .fin (cleanupEd st) f (.resolvedF (cs "released v" ++ newVersion))
    else if st.firstInput then
      match stdoutWrite fuel with
      | none => .crash st
      | some f =>
        if jsTrim st.buffer = [] then
          match stdoutWrite f with
          | none => .crash (cleanupEd st)
          | some f2 => .fin (cleanupEd st) f2 (.resolvedF (cs "released v" ++ newVersion))
        else
          .fin (cleanupEd st) f
            (.resolvedF (cs "released v" ++ newVersion ++ cs " - " ++
              escapeQuotes (jsTrim st.buffer)))
    else if jsTrim st.buffer = [] then
      match stdoutWrite fuel with
      | none => .crash st
      | some f => .fin (cleanupEd st) f (.resolvedF (finishInputMsg newVersion st.inputLines))
    else
      match stdoutWrite fuel with
      | none => .crash { st with
          inputLines := st.inputLines ++ [st.buffer]
          buffer := []
          firstInput := false }
      | some f => .cont { st with
          inputLines := st.inputLines ++ [st.buffer]
          buffer := []
          firstInput := false } f
  else if k = '\x7f' ∨ k = '\x08' then
    if st.placeholderCleared = false then .cont st fuel
    else if st.buffer = [] then .cont st fuel
    else
      match stdoutWrite fuel with
      | none => .crash { st with buffer := st.buffer.dropLast }
      | some f => .cont { st with buffer := st.buffer.dropLast } f
  else if ' ' ≤ k ∧ k ≤ '~' then
    if st.placeholderCleared = false then
      match stdoutWrite fuel with
      | none => .crash st
      | some f =>
        match stdoutWrite f with
        | none => .crash { st with placeholderCleared := true, buffer := st.buffer ++ [k] }
        | some f2 => .cont { st with placeholderCleared := true, buffer := st.buffer ++ [k] } f2
    else
      match stdoutWrite fuel with
      | none => .crash { st with buffer := st.buffer ++ [k] }
      | some f => .cont { st with buffer := st.buffer ++ [k] } f
  else .cont st fuel

/-- A whole commit-editor session outcome with explicit writes: settled,
crashed by an uncaught write exception (the promise never settles), or still
pending. -/
inductive EdOutcomeW
  | settled (st : EdSt) (r : EdFin)
  | crashed (st : EdSt)
  | pending (st : EdSt) (fuel : Nat)
deriving DecidableEq, Repr

/-- Drive the write-explicit commit editor over a keystroke sequence. -/
def runEdFromW (newVersion : List Char) (st : EdSt) (fuel : Nat) : List Char → EdOutcomeW
  | [] => .pending st fuel
  | k :: ks =>
    match edStepW newVersion st fuel k with
    | .cont st2 f2 => runEdFromW newVersion st2 f2 ks
    | .fin st2 _ r => .settled st2 r
    | .crash st2 => .crashed st2

/-- A full `getCommitMessage` session with explicit writes.  The placeholder
prompt is written (`publish.js` line 382) before raw mode is acquired (line 390),
so a failure of that very first write crashes with raw mode still off.  With a
budget large enough that no write throws, this agrees with `runCommitEditor`. -/
def runCommitEditorW (newVersion : List Char) (fuel : Nat) (keys : List Char) : EdOutcomeW :=
  match stdoutWrite fuel with
  | none => .crashed ⟨[], true, false, [], false⟩
  | some f => runEdFromW newVersion initEd f keys

/-- Result of one OTP keystroke with the stdout writes explicit. -/
inductive OtpStepResW
  | cont (st : OtpSt) (fuel : Nat)
  | fin (st : OtpSt) (fuel : Nat) (r : OtpFin)
  | crash (st : OtpSt)
deriving DecidableEq, Repr

/-- Function `handleInput` of `promptOtp` (`publish.js` lines 518-546) with every
write explicit and fallible, refining `otpStep`.  Ctrl+C performs no write
before `cleanup()` (lines 521-525); Enter echoes a newline (528) before
cleanup (529); backspace writes only on a non-empty code (535-537); a digit
is appended and then echoed (543-544). -/
def otpStepW (st : OtpSt) (fuel : Nat) (k : Char) : OtpStepResW :=
  if k = '\x03' then .fin { st with rawMode := false } fuel .rejectedCtrlC
  else if k = '\r' ∨ k = '\n' then
    match stdoutWrite fuel with
    | none => .crash st
    | some f => .fin { st with rawMode := false } f (.resolvedF (jsTrim st.code))
  else if k = '\x7f' ∨ k = '\x08' then
    if st.code = [] then .cont st fuel
    else
      match stdoutWrite fuel with
      | none => .crash { st with code := st.code.dropLast }
      | some f => .cont { st with code := st.code.dropLast } f
  else if '0' ≤ k ∧ k ≤ '9' then
    match stdoutWrite fuel with
    | none => .crash { st with code := st.code ++ [k] }
    | some f => .cont { st with code := st.code ++ [k] } f
  else .cont st fuel

/-- A whole OTP session outcome with explicit writes. -/
inductive OtpOutcomeW
  | settled (st : OtpSt) (r : OtpFin)
  | crashed (st : OtpSt)
  | pending (st : OtpSt) (fuel : Nat)
deriving DecidableEq, Repr

/-- Drive the write-explicit OTP editor over a keystroke sequence. -/
def runOtpFromW (st : OtpSt) (fuel : Nat) : List Char → OtpOutcomeW
  | [] => .pending st fuel
  | k :: ks =>
    match otpStepW st fuel k with
    | .cont st2 f2 => runOtpFromW st2 f2 ks
    | .fin st2 _ r => .settled st2 r
    | .crash st2 => .crashed st2

/-- A full `promptOtp` session with explicit writes: the prompt is written
(`publish.js` line 512) before raw mode is acquired (line 515). -/
def runOtpEditorW (fuel : Nat) (keys : List Char) : OtpOutcomeW :=
  match stdoutWrite fuel with
  | none => .crashed ⟨[], false⟩
  | some f => runOtpFromW ⟨[], true⟩ f keys

/-- Formalisation of claim C9 as stated: both editors release raw mode on
every terminating path — whether the promise settles or the session exits
through a thrown error. -/
def RawAlwaysReleasedClaim : Prop :=
  (∀ (newVersion : List Char) (fuel : Nat) (keys : List Char) (st : EdSt) (r : EdFin),
    runCommitEditorW newVersion fuel keys = .settled st r → st.rawMode = false) ∧
  (∀ (newVersion : List Char) (fuel : Nat) (keys : List Char) (st : EdSt),
    runCommitEditorW newVersion fuel keys = .crashed st → st.rawMode = false) ∧
  (∀ (fuel : Nat) (keys : List Char) (st : OtpSt) (r : OtpFin),
    runOtpEditorW fuel keys = .settled st r → st.rawMode = false) ∧
  (∀ (fuel : Nat) (keys : List Char) (st : OtpSt),
    runOtpEditorW fuel keys = .crashed st → st.rawMode = false)

theorem edStepW_fin_raw {newVersion : List Char} {st : EdSt} {fuel : Nat} {k : Char}
    {st2 : EdSt} {f2 : Nat} {r : EdFin}
    (h : edStepW newVersion st fuel k = .fin st2 f2 r) : st2.rawMode = false := by
  unfold edStepW at h
  repeat' split at h
  all_goals cases h
  all_goals rfl

theorem runEdFromW_settled_raw {newVersion : List Char} :
    ∀ (keys : List Char) (st : EdSt) (fuel : Nat) (st2 : EdSt) (r : EdFin),
      runEdFromW newVersion st fuel keys = .settled st2 r → st2.rawMode = false := by
  intro keys
  induction keys with
  | nil => intro st fuel st2 r h; exact absurd h (by simp [runEdFromW])
  | cons k ks ih =>
    intro st fuel st2 r h
    cases hstep : edStepW newVersion st fuel k with
    | cont st3 f3 =>
      simp only [runEdFromW, hstep] at h
      exact ih st3 f3 st2 r h
    | fin st3 f3 r3 =>
      simp only [runEdFromW, hstep] at h
      cases h
      exact edStepW_fin_raw hstep
    | crash st3 =>
      simp only [runEdFromW, hstep] at h
      cases h

theorem otpStepW_fin_raw {st : OtpSt} {fuel : Nat} {k : Char}
    {st2 : OtpSt} {f2 : Nat} {r : OtpFin}
    (h : otpStepW st fuel k = .fin st2 f2 r) : st2.rawMode = false := by
  unfold otpStepW at h
  repeat' split at h
  all_goals cases h
  all_goals rfl

theorem runOtpFromW_settled_raw :
    ∀ (keys : List Char) (st : OtpSt) (fuel : Nat) (st2 : OtpSt) (r : OtpFin),
      runOtpFromW st fuel keys = .settled st2 r → st2.rawMode = false := by
  intro keys
  induction keys with
  | nil => intro st fuel st2 r h; exact absurd h (by simp [runOtpFromW])
  | cons k ks ih =>
    intro st fuel st2 r h
    cases hstep : otpStepW st fuel k with
    | cont st3 f3 =>
      simp only [runOtpFromW, hstep] at h
      exact ih st3 f3 st2 r h
    | fin st3 f3 r3 =>
      simp only [runOtpFromW, hstep] at h
      cases h
      exact otpStepW_fin_raw hstep
    | crash st3 =>
      simp only [runOtpFromW, hstep] at h
      cases h

/-- Claim C9 is false as stated: raw mode is NOT released on every exit path
including thrown errors.  In a `getCommitMessage` session whose second stdout
write throws (the first write is the placeholder prompt of line 382), pressing
Escape makes the cancelled-line write of `publish.js` line 408 throw before the
`cleanup()` of line 409 ever runs — there is no try/finally — so the session
terminates through an uncaught exception with raw mode still enabled and the
promise never settled. -/
theorem editor_raw_leak_on_write_throw :
    runCommitEditorW (cs "1") 1 ['\x1b'] = .crashed ⟨[], true, false, [], true⟩ ∧
    (⟨[], true, false, [], true⟩ : EdSt).rawMode = true ∧
    ¬ RawAlwaysReleasedClaim := by
  refine ⟨by decide, rfl, fun hcl => ?_⟩
  have h := hcl.2.1 (cs "1") 1 ['\x1b'] ⟨[], true, false, [], true⟩ (by decide)
  exact absurd h (by decide)

/-- Claim C9, amended: raw mode is released on every path that settles the
session's promise — resolution or rejection, in both commit-message and OTP
modes, under every write-fault budget — because each settling branch calls
`cleanup()` before `resolve`/`reject`.  The original claim's extension to
thrown errors does not hold (see `editor_raw_leak_on_write_throw`): with no
try/finally, a write that throws inside a settling branch skips `cleanup()`
and ends the session with raw mode still enabled. -/
theorem editor_releases_raw_on_settle :
    (∀ (newVersion : List Char) (fuel : Nat) (keys : List Char) (st : EdSt) (r : EdFin),
      runCommitEditorW newVersion fuel keys = .settled st r → st.rawMode = false) ∧
    (∀ (fuel : Nat) (keys : List Char) (st : OtpSt) (r : OtpFin),
      runOtpEditorW fuel keys = .settled st r → st.rawMode = false) := by
  constructor
  · intro newVersion fuel keys st r h
    unfold runCommitEditorW at h
    cases hw : stdoutWrite fuel with
    | none => rw [hw] at h; cases h
    | some f => rw [hw] at h; exact runEdFromW_settled_raw keys initEd f st r h
  · intro fuel keys st r h
    unfold runOtpEditorW at h
    cases hw : stdoutWrite fuel with
    | none => rw [hw] at h; cases h
    | some f => rw [hw] at h; exact runOtpFromW_settled_raw keys ⟨[], true⟩ f st r h

/-- Witness for the amended C9 theorem: with a write budget of 2, pressing
Enter immediately settles the commit editor through the skip branch, and the
theorem yields raw mode off in the settled state. -/
theorem editor_releases_raw_on_settle_witness :
    (EdSt.mk [] true false [] false).rawMode = false :=
  editor_releases_raw_on_settle.1 (cs "1") 2 ['\r'] ⟨[], true, false, [], false⟩
    (.resolvedF (cs "released v1")) (by decide)

theorem edStep_printable {newVersion : List Char} {st : EdSt} {k : Char}
    (h1 : ' ' ≤ k) (h2 : k ≤ '~') :
    edStep newVersion st k =
      .cont { st with placeholderCleared := true, buffer := st.buffer ++ [k] } := by
  have e1 : ¬ k = '\x1b' := fun hc => absurd (hc ▸ h1) (by decide)
  have e2 : ¬ k = '\x03' := fun hc => absurd (hc ▸ h1) (by decide)
  have e3 : ¬ (k = '\r' ∨ k = '\n') := by
    rintro (hc | hc)
    · exact absurd (hc ▸ h1) (by decide)
    · exact absurd (hc ▸ h1) (by decide)
  have e4 : ¬ (k = '\x7f' ∨ k = '\x08') := by
    rintro (hc | hc)
    · exact absurd (hc ▸ h2) (by decide)
    · exact absurd (hc ▸ h1) (by decide)
  rw [edStep, if_neg e1, if_neg e2, if_neg e3, if_neg e4, if_pos ⟨h1, h2⟩]

theorem runEd_printables (newVersion : List Char) :
    ∀ (ks rest : List Char) (st : EdSt), (∀ c ∈ ks, ' ' ≤ c ∧ c ≤ '~') →
      runEdFrom newVersion st (ks ++ rest) =
        runEdFrom newVersion
          { st with
            placeholderCleared := if ks.isEmpty then st.placeholderCleared else true
            buffer := st.buffer ++ ks } rest := by
  intro ks
  induction ks with
  | nil =>
    intro rest st _
    simp
  | cons c ks2 ih =>
    intro rest st hp
    obtain ⟨hc1, hc2⟩ := hp c (by simp)
    have hks2 : ∀ x ∈ ks2, ' ' ≤ x ∧ x ≤ '~' := fun x hx => hp x (by simp [hx])
    show runEdFrom newVersion st (c :: (ks2 ++ rest)) = _
    rw [runEdFrom, edStep_printable hc1 hc2]
    show runEdFrom newVersion
        { st with placeholderCleared := true, buffer := st.buffer ++ [c] } (ks2 ++ rest) = _
    rw [ih rest _ hks2]
    simp

/-- Claim C7 refuted: the keystrokes `h`, `i`, Enter settle the session, but
the resolved value is the composed commit message
`released v1.2.3 - hi`, not the bare line `hi`. -/
theorem commit_editor_hi_counterexample :
    runCommitEditor (cs "1.2.3") ['h', 'i', '\r'] =
      .settled ⟨[], true, true, cs "hi", false⟩ (.resolvedF (cs "released v1.2.3 - hi")) ∧
    cs "released v1.2.3 - hi" ≠ cs "hi" := by
  exact ⟨by decide, by decide⟩

/-- Claim C7, amended: a first line of printable characters followed by Enter
settles the session immediately with raw mode released; the resolved value is
`released v<version> - <line>` (the captured line, quotes escaped), or the
default `released v<version>` when the line is all blanks. -/
theorem commit_editor_first_line :
    ∀ (newVersion ks : List Char), ks ≠ [] → (∀ c ∈ ks, ' ' ≤ c ∧ c ≤ '~') →
      runCommitEditor newVersion (ks ++ ['\r']) =
        .settled ⟨[], true, true, ks, false⟩
          (.resolvedF (if jsTrim ks = [] then cs "released v" ++ newVersion
            else cs "released v" ++ newVersion ++ cs " - " ++ escapeQuotes (jsTrim ks))) := by
  intro newVersion ks hne hp
  rw [runCommitEditor, runEd_printables newVersion ks ['\r'] initEd hp]
  have hemp : ks.isEmpty = false := by simpa using hne
  rw [show ({ initEd with
      placeholderCleared := if ks.isEmpty then initEd.placeholderCleared else true
      buffer := initEd.buffer ++ ks } : EdSt) = ⟨[], true, true, ks, true⟩ by
    simp [initEd, hemp]]
  by_cases htrim : jsTrim ks = [] <;>
    simp [runEdFrom, edStep, cleanupEd, htrim]

/-- Witness for `commit_editor_first_line` on the keystrokes `o`, `k`, Enter. -/
theorem commit_editor_first_line_witness :
    runCommitEditor (cs "1.0.0") (cs "ok" ++ ['\r']) =
      .settled ⟨[], true, true, cs "ok", false⟩ (.resolvedF (cs "released v1.0.0 - ok")) := by
  rw [commit_editor_first_line (cs "1.0.0") (cs "ok") (by decide) (by decide)]
  decide

/-- Claim C8 refuted at the spec's own scenario: typing `a`, Enter, `b`,
Enter, Enter does not produce the joined message `a`-newline-`b`; the session
already settles at the first Enter with the single-line result. -/
theorem commit_editor_multiline_counterexample :
    runCommitEditor (cs "1.0.0") ['a', '\r', 'b', '\r', '\r'] =
      .settled ⟨[], true, true, ['a'], false⟩ (.resolvedF (cs "released v1.0.0 - a")) := by
  decide

/-- Claim C8, amended: the multi-line continuation branches are dead code.
From the initial state `firstInput` stays `true` and `inputLines` stays empty
across every non-settling keystroke, and with `firstInput = true` every Enter
settles the session immediately, so the line-appending branch (the only writer
of `firstInput := false`) is unreachable. -/
theorem commit_editor_no_multiline :
    (initEd.firstInput = true ∧ initEd.inputLines = []) ∧
    (∀ (newVersion : List Char) (st : EdSt) (k : Char) (st2 : EdSt),
      st.firstInput = true → st.inputLines = [] → edStep newVersion st k = .cont st2 →
      st2.firstInput = true ∧ st2.inputLines = []) ∧
    (∀ (newVersion : List Char) (st : EdSt), st.firstInput = true →
      ∃ st2 r, edStep newVersion st '\r' = .fin st2 r) := by
  refine ⟨⟨rfl, rfl⟩, ?_, ?_⟩
  · intro newVersion st k st2 hfi hil h
    unfold edStep at h
    repeat' split at h
    all_goals cases h
    all_goals simp_all
  · intro newVersion st hfi
    unfold edStep
    rw [if_neg (by decide : ¬ ('\r' : Char) = '\x1b'),
      if_neg (by decide : ¬ ('\r' : Char) = '\x03'),
      if_pos (Or.inl rfl : ('\r' : Char) = '\r' ∨ ('\r' : Char) = '\n')]
    by_cases h1 : st.placeholderCleared = false ∧ st.buffer = []
    · exact ⟨_, _, by rw [if_pos h1]⟩
    · rw [if_neg h1, if_pos hfi]
      by_cases h2 : jsTrim st.buffer = []
      · exact ⟨_, _, by rw [if_pos h2]⟩
      · exact ⟨_, _, by rw [if_neg h2]⟩

/-- Witness for `commit_editor_no_multiline`: one printable keystroke from the
initial state keeps the single-line invariant. -/
theorem commit_editor_no_multiline_witness :
    (⟨[], true, true, ['a'], true⟩ : EdSt).firstInput = true ∧
      (⟨[], true, true, ['a'], true⟩ : EdSt).inputLines = [] :=
  commit_editor_no_multiline.2.1 (cs "1") initEd 'a' ⟨[], true, true, ['a'], true⟩
    rfl rfl (by decide)

/-- A persisted package manifest: the `version` field plus all other fields,
which the release flow treats opaquely. -/
structure Manifest where
  version : String
  rest : List (String × String)
deriving DecidableEq, Repr

/-- The console lines of `releaseCommand` that the claims talk about. -/
inductive LogLine
  | releasingLine (oldVersion newVersion : String)
  | commitCancelledLine
  | releaseFailedLine (msg : String)
  | revertedLine (toVersion : String)
  | dryRunSkipLine
  | successLine (version : String)
deriving DecidableEq, Repr

/-- The observable world `releaseCommand` mutates: the persisted manifest,
whether the source and staging directories exist, the staged manifest copy,
and the printed log. -/
structure World where
  pkg : Manifest
  srcExists : Bool
  stagingExists : Bool
  stagedPkg : Option Manifest
  log : List LogLine
deriving DecidableEq, Repr

/-- Configuration resolved from the command line by `releaseCommand`;
`releaseType` is already the winner of the documented flag precedence. -/
structure Config where
  releaseType : String
  dryRun : Bool
  noCleanup : Bool
  publicAccess : Bool
  shouldTag : Bool
  shouldPush : Bool
  noGit : Bool
  shouldPrepare : Bool
  silent : Bool
  useOtp : Bool
deriving DecidableEq, Repr

/-- Result of an interactive commit-message session as the orchestrator sees
it. -/
inductive EditorOutcome
  | msg (s : String)
  | cancelEscape
  | cancelCtrlC
deriving DecidableEq, Repr

/-- Result of an OTP prompt as the orchestrator sees it. -/
inductive OtpPromptOutcome
  | code (s : String)
  | cancelCtrlC
deriving DecidableEq, Repr

/-- Environment oracle fixing the outcome of every external interaction of a
run: the prepare step, the file copy, the editors, the git commands and the
registry publish.  File-system primitives (`emptyDir`, `writeJSON`, `remove`)
are modelled as reliable. -/
structure Oracle where
  prepareOk : Bool
  copyOk : Bool
  commitEditor : EditorOutcome
  gitAddOk : Bool
  gitCommitOk : Bool
  gitTagOk : Bool
  gitPushOk : Bool
  gitPushTagsOk : Bool
  otp : OtpPromptOutcome
  publishOk : Bool
deriving DecidableEq, Repr

/-- Pipeline errors. -/
inductive Err
  | prepareFailed
  | sourceMissing
  | copyFailed
  | cmdFailed (cmd : String)
  | userCancelledEscape
  | userCancelledCtrlC
  | noOtp
deriving DecidableEq, Repr

/-- The `message` of each error, as the code builds it.  `runCommand` rejects
with the exit code interpolated; the code value is digits only and cannot
affect the `includes('cancelled')` test, so it is fixed to 1 here; messages of
errors that no catch block inspects are abbreviated. -/
def errMessage : Err → String
  | .prepareFailed => "Lint failed"
  | .sourceMissing => "Source directory does not exist. Run itty build first."
  | .copyFailed => "copy failed"
  | .cmdFailed cmd => "Command failed with exit code 1: " ++ cmd
  | .userCancelledEscape => "User cancelled with Escape key"
  | .userCancelledCtrlC => "User cancelled with Ctrl+C"
  | .noOtp => "No OTP code provided"

/-- Final outcome of a release invocation: success (exit code 0), the
user-cancel clean exit (`process.exit(0)`), or a propagated failure (non-zero
exit code). -/
inductive Outcome
  | success (version : String)
  | cancelled
  | failure (e : Err)
deriving DecidableEq, Repr

/-- JS `error.message.includes('cancelled')`. -/
def includesCancelled (msg : String) : Bool := lsub (cs "cancelled") msg.data

/-- The default commit message `released v<newVersion>`. -/
def defaultMsg (newVersion : String) : String := "released v" ++ newVersion

/-- The `git commit` command string of `releaseCommand`. -/
def commitCmd (m : String) : String := "git commit -m \"" ++ m ++ "\""

/-- The npm publish command string of `releaseCommand`: fixed registry,
optional public access, a dist-tag for non-standard release kinds, and an
optional OTP. -/
def publishCmdStr (cfg : Config) (otpCode : Option String) : String :=
  String.intercalate " " (List.filter (fun s => !s.isEmpty)
    ["npm publish", "--registry=https://registry.npmjs.org",
     if cfg.publicAccess then "--access=public" else "",
     if cfg.releaseType = "major" ∨ cfg.releaseType = "minor" ∨ cfg.releaseType = "patch"
       then "" else "--tag=" ++ cfg.releaseType,
     match otpCode with
     | some c => "--otp=" ++ c
     | none => ""])

/-- The version-revert step of the catch block: re-read the persisted
manifest; if its version differs from the original, write it back with only
the version field replaced (the `{ ...currentPkg, version: originalVersion }`
spread); otherwise perform no write.  Returns the resulting manifest and
whether a write happened. -/
def catchRevert (originalVersion : String) (disk : Manifest) : Manifest × Bool :=
  if disk.version ≠ originalVersion then
    ({ disk with version := originalVersion }, true)
  else (disk, false)

/-- The catch block of `releaseCommand`: print the failure line; unless
dry-run, revert the persisted version via `catchRevert`; remove the staging
directory if it exists and cleanup is not suppressed; rethrow the original
error. -/
def failWith (cfg : Config) (originalVersion : String) (w : World) (e : Err) :
    World × Outcome :=
  let w1 := { w with log := w.log ++ [.releaseFailedLine (errMessage e)] }
  let w2 :=
    if cfg.dryRun then w1
    else
      match catchRevert originalVersion w1.pkg with
      | (m, true) =>
        { w1 with
          pkg := m
          log := w1.log ++ [.revertedLine originalVersion] }
      | (m, false) => { w1 with pkg := m }
  let w3 :=
    if w2.stagingExists && !cfg.noCleanup then
      { w2 with stagingExists := false, stagedPkg := none }
    else w2
  (w3, .failure e)

/-- Function `getCommitMessage(newVersion, silent)` as the orchestrator sees it: the
silent flag short-circuits to the default message without any session;
otherwise the oracle supplies the session outcome, whose rejections carry the
two `User cancelled` messages. -/
def getCommitMessageM (o : Oracle) (newVersion : String) (silent : Bool) :
    Except Err String :=
  if silent then .ok (defaultMsg newVersion)
  else
    match o.commitEditor with
    | .msg s => .ok s
    | .cancelEscape => .error .userCancelledEscape
    | .cancelCtrlC => .error .userCancelledCtrlC

/-- Flow of the git phase: proceed with a commit message, exit the process
cleanly, or fail. -/
inductive GitFlow
  | ok (w : World) (commitMessage : String)
  | exit0 (w : World)
  | err (w : World) (e : Err)
deriving DecidableEq, Repr

/-- Flow of a phase without a carried value. -/
inductive PhaseFlow
  | ok (w : World)
  | exit0 (w : World)
  | err (w : World) (e : Err)
deriving DecidableEq, Repr

/-- The inner try/catch around commit-message entry, `git add` and
`git commit`: an error whose message contains `cancelled` writes the original
manifest object back, prints the cancelled line and exits the process with
code 0 (without rethrowing); any other error is rethrown to the outer catch. -/
def innerCommit (cfg : Config) (o : Oracle) (originalPkg : Manifest)
    (newVersion : String) (w : World) : GitFlow :=
  let res : Except Err String :=
    match getCommitMessageM o newVersion cfg.silent with
    | .error e => .error e
    | .ok m =>
      if !o.gitAddOk then .error (.cmdFailed "git add .")
      else if !o.gitCommitOk then .error (.cmdFailed (commitCmd m))
      else .ok m
  match res with
  | .ok m => .ok w m
  | .error e =>
    if includesCancelled (errMessage e) then
      .exit0 { w with
        pkg := originalPkg
        log := w.log ++ [.commitCancelledLine] }
    else .err w e

/-- The git phase of `releaseCommand`: skipped under `--no-git` or dry-run;
commit (with interactive message) when a push or tag was requested; then tag,
push, and push tags, each failing on a non-zero exit. -/
def gitPhase (cfg : Config) (o : Oracle) (originalPkg : Manifest)
    (newVersion : String) (w : World) : PhaseFlow :=
  if cfg.noGit || cfg.dryRun then .ok w
  else
    match (if cfg.shouldPush || cfg.shouldTag then
        innerCommit cfg o originalPkg newVersion w
      else .ok w (defaultMsg newVersion)) with
    | .exit0 w2 => .exit0 w2
    | .err w2 e => .err w2 e
    | .ok w2 commitMessage =>
      if cfg.shouldTag && !o.gitTagOk then
        .err w2 (.cmdFailed ("git tag -a v" ++ newVersion ++ " -m \"" ++ commitMessage ++ "\""))
      else if cfg.shouldPush && !o.gitPushOk then .err w2 (.cmdFailed "git push")
      else if cfg.shouldPush && cfg.shouldTag && !o.gitPushTagsOk then
        .err w2 (.cmdFailed "git push --tags")
      else .ok w2

/-- The publish phase of `releaseCommand`: skipped in dry-run (with the skip
line); otherwise the optional OTP prompt (a Ctrl+C rejection propagates to the
outer catch; an empty code throws `No OTP code provided`) and the registry
publish. -/
def publishPhase (cfg : Config) (o : Oracle) (w : World) : World × Option Err :=
  if cfg.dryRun then ({ w with log := w.log ++ [.dryRunSkipLine] }, none)
  else
    match (if cfg.useOtp then
        (match o.otp with
         | .code s => if s = "" then Except.error Err.noOtp else Except.ok (some s)
         | .cancelCtrlC => Except.error Err.userCancelledCtrlC)
      else Except.ok none) with
    | .error e => (w, some e)
    | .ok otpCode =>
      if !o.publishOk then (w, some (.cmdFailed (publishCmdStr cfg otpCode)))
      else (w, none)

/-- Function `releaseCommand` after argument parsing: read the manifest and remember
the original version, compute the bumped version, check the source directory,
clear and fill the staging directory, write the staged manifest, persist the
bumped manifest unless dry-run (the mutation boundary), run the git phase,
publish, clean up, and report; every thrown error lands in `failWith`. -/
def runRelease (cfg : Config) (o : Oracle) (w0 : World) : World × Outcome :=
  let originalPkg := w0.pkg
  let originalVersion := originalPkg.version
  let newVersion := versionBump originalVersion cfg.releaseType
  if cfg.shouldPrepare && !o.prepareOk then
    failWith cfg originalVersion w0 .prepareFailed
  else
    let w1 := { w0 with log := w0.log ++ [.releasingLine originalVersion newVersion] }
    if !w1.srcExists then failWith cfg originalVersion w1 .sourceMissing
    else
      let w2 := { w1 with stagingExists := true, stagedPkg := none }
      if !o.copyOk then failWith cfg originalVersion w2 .copyFailed
      else
        let updatedPkg := { originalPkg with version := newVersion }
        let w3 := { w2 with stagedPkg := some updatedPkg }
        let w4 := if !cfg.dryRun then { w3 with pkg := updatedPkg } else w3
        match gitPhase cfg o originalPkg newVersion w4 with
        | .exit0 w5 => (w5, .cancelled)
        | .err w5 e => failWith cfg originalVersion w5 e
        | .ok w5 =>
          match publishPhase cfg o w5 with
          | (w6, some e) => failWith cfg originalVersion w6 e
          | (w6, none) =>
            let w7 :=
              if !cfg.noCleanup then { w6 with stagingExists := false, stagedPkg := none }
              else w6
            ({ w7 with log := w7.log ++ [.successLine newVersion] }, .success newVersion)

/-- In dry-run mode the catch block skips the revert, so it never touches the
persisted manifest. -/
theorem failWith_pkg_dryRun {cfg : Config} {ov : String} {w : World} {e : Err}
    (h : cfg.dryRun = true) : ((failWith cfg ov w e).1).pkg = w.pkg := by
  rw [failWith]
  simp only [h, if_true]
  split <;> rfl

/-- No path of a dry-run invocation writes the persisted manifest. -/
theorem runRelease_dryRun_pkg (cfg : Config) (o : Oracle) (w : World)
    (hdry : cfg.dryRun = true) : (runRelease cfg o w).1.pkg = w.pkg := by
  unfold runRelease
  repeat' split
  all_goals (try exact failWith_pkg_dryRun hdry)
  all_goals simp_all [gitPhase, publishPhase, failWith, catchRevert, hdry]
  all_goals repeat' split
  all_goals rfl

/-- Shared concrete starting state: version `1.2.3`, source present, no
staging directory yet. -/
def baseWorld : World := ⟨⟨"1.2.3", [("name", "itty-packager")]⟩, true, false, none, []⟩

/-- Concrete dry-run configuration with kind `patch`. -/
def dryRunCfg : Config := ⟨"patch", true, false, false, false, false, false, false, false, false⟩

/-- An oracle on which every external interaction succeeds. -/
def allOkOracle : Oracle :=
  ⟨true, true, .msg "m", true, true, true, true, true, .code "1", true⟩

/-- Claim C5: a dry-run release never writes the persisted manifest — over all
configurations, oracles and worlds — and concretely, from version `1.2.3` with
kind `patch`, the run reports target `1.2.4` (releasing line and success
outcome) while the persisted version stays `1.2.3`. -/
theorem release_dryRun_preserves_manifest :
    (∀ (cfg : Config) (o : Oracle) (w : World), cfg.dryRun = true →
      (runRelease cfg o w).1.pkg = w.pkg) ∧
    runRelease dryRunCfg allOkOracle baseWorld =
      (⟨⟨"1.2.3", [("name", "itty-packager")]⟩, true, false, none,
        [.releasingLine "1.2.3" "1.2.4", .dryRunSkipLine, .successLine "1.2.4"]⟩,
       .success "1.2.4") :=
  ⟨runRelease_dryRun_pkg, by decide⟩

/-- Witness for `release_dryRun_preserves_manifest` at the concrete dry run. -/
theorem release_dryRun_preserves_manifest_witness :
    (runRelease dryRunCfg allOkOracle baseWorld).1.pkg = baseWorld.pkg :=
  release_dryRun_preserves_manifest.1 dryRunCfg allOkOracle baseWorld rfl

/-- Claim C6, amended: when the cancellation comes from the commit-message
editor (Escape or Ctrl+C), a reachable git phase reverts the persisted
manifest to its pre-pipeline value, prints the distinct cancelled line, and
the process exits cleanly (`Outcome.cancelled`, exit code 0). -/
theorem commit_cancel_clean_exit (cfg : Config) (o : Oracle) (w : World)
    (hdry : cfg.dryRun = false) (hgit : cfg.noGit = false) (hsil : cfg.silent = false)
    (hpt : (cfg.shouldPush || cfg.shouldTag) = true)
    (hcancel : o.commitEditor = .cancelEscape ∨ o.commitEditor = .cancelCtrlC)
    (hprep : (cfg.shouldPrepare && !o.prepareOk) = false)
    (hsrc : w.srcExists = true) (hcopy : o.copyOk = true) :
    (runRelease cfg o w).2 = .cancelled ∧ (runRelease cfg o w).1.pkg = w.pkg ∧
      LogLine.commitCancelledLine ∈ (runRelease cfg o w).1.log := by
  have hmsg1 : includesCancelled (errMessage Err.userCancelledEscape) = true := by decide
  have hmsg2 : includesCancelled (errMessage Err.userCancelledCtrlC) = true := by decide
  rcases hcancel with hc | hc <;>
    (unfold runRelease
     repeat' split <;>
       simp_all [gitPhase, innerCommit, getCommitMessageM, failWith, publishPhase, catchRevert])

/-- Concrete configuration for the commit-cancel witness: `--push`, not
dry-run, interactive. -/
def cancelCfg : Config := ⟨"minor", false, false, false, false, true, false, false, false, false⟩

/-- Oracle on which the commit-message editor is cancelled with Escape. -/
def cancelOracle : Oracle :=
  ⟨true, true, .cancelEscape, true, true, true, true, true, .code "1", true⟩

/-- Witness for `commit_cancel_clean_exit` at a concrete Escape cancellation. -/
theorem commit_cancel_clean_exit_witness :
    (runRelease cancelCfg cancelOracle baseWorld).2 = .cancelled :=
  (commit_cancel_clean_exit cancelCfg cancelOracle baseWorld rfl rfl rfl rfl
    (Or.inl rfl) rfl rfl rfl).1

/-- Concrete configuration for the OTP-cancel counterexample: `--otp`,
`--no-git`, not dry-run. -/
def otpCancelCfg : Config := ⟨"patch", false, false, false, false, false, true, false, false, true⟩

/-- Oracle on which the OTP prompt is interrupted with Ctrl+C. -/
def otpCancelOracle : Oracle :=
  ⟨true, true, .msg "m", true, true, true, true, true, .cancelCtrlC, true⟩

/-- Claim C6 refuted for the OTP editor: a Ctrl+C during the OTP prompt does
not produce the clean cancelled exit the claim promises for every LineEditor
session; it propagates as a failure (failure line, non-zero exit), though the
version is still reverted by the catch block. -/
theorem otp_cancel_not_clean_exit :
    (runRelease otpCancelCfg otpCancelOracle baseWorld).2 = .failure .userCancelledCtrlC ∧
    (runRelease otpCancelCfg otpCancelOracle baseWorld).2 ≠ .cancelled ∧
    (runRelease otpCancelCfg otpCancelOracle baseWorld).1.pkg.version = "1.2.3" := by
  decide

/-- Configuration of claim C1's failing input: kind `minor`, not dry-run,
`--push`, interactive. -/
def misrouteCfg : Config := ⟨"minor", false, false, false, false, true, false, false, false, false⟩

/-- Oracle of claim C1's failing input: the user typed commit message
`cancelled x` (which the editor resolves as `released v1.3.0 - cancelled x`),
`git add` succeeds and `git commit` exits non-zero. -/
def misrouteOracle : Oracle :=
  ⟨true, true, .msg "released v1.3.0 - cancelled x", true, false, true, true, true,
    .code "123456", true⟩

/-- Claim C1 evaluated at its failing input: the `git commit` stage fails
after the mutation boundary, but because the failure message contains the
substring `cancelled` (from the user's commit message), the inner catch
misroutes it to the user-cancel path: the version is reverted wholesale, the
cancelled line is printed, the staging directory is left behind, and the
process exits 0 instead of propagating the failure. -/
theorem release_commit_cancel_misroute :
    runRelease misrouteCfg misrouteOracle baseWorld =
      (⟨⟨"1.2.3", [("name", "itty-packager")]⟩, true, true,
        some ⟨"1.3.0", [("name", "itty-packager")]⟩,
        [.releasingLine "1.2.3" "1.3.0", .commitCancelledLine]⟩, .cancelled) := by
  decide

/-- Claim C10: the failure-path revert touches only the `version` field of
whatever manifest is on disk at failure time — all other fields survive
verbatim — it is skipped entirely when the on-disk version already equals the
original, and the catch block of `runRelease` applies exactly this revert to
the current on-disk manifest whenever the run is not a dry run. -/
theorem catchRevert_frame :
    ∀ (disk : Manifest) (originalVersion : String),
      ((catchRevert originalVersion disk).1.rest = disk.rest) ∧
      ((catchRevert originalVersion disk).1.version = originalVersion) ∧
      (disk.version = originalVersion → catchRevert originalVersion disk = (disk, false)) ∧
      (disk.version ≠ originalVersion →
        catchRevert originalVersion disk = ({ disk with version := originalVersion }, true)) ∧
      (∀ (cfg : Config) (w : World) (e : Err), cfg.dryRun = false → w.pkg = disk →
        ((failWith cfg originalVersion w e).1).pkg = (catchRevert originalVersion disk).1) := by
  intro disk ov
  refine ⟨?_, ?_, ?_, ?_, ?_⟩
  · rw [catchRevert]
    split <;> rfl
  · rw [catchRevert]
    split <;> simp_all [Decidable.not_not]
  · intro h
    rw [catchRevert, if_neg (by simp [h])]
  · intro h
    rw [catchRevert, if_pos h]
  · intro cfg w e hdry hw
    subst hw
    rw [failWith]
    simp only [hdry]
    repeat' split
    all_goals simp_all

/-- Witness for `catchRevert_frame`: a revert at a differing on-disk version
keeps the other fields and rewrites only the version. -/
theorem catchRevert_frame_witness :
    catchRevert "1.2.3" ⟨"1.3.0", [("name", "pkg")]⟩ =
      (⟨"1.2.3", [("name", "pkg")]⟩, true) :=
  (catchRevert_frame ⟨"1.3.0", [("name", "pkg")]⟩ "1.2.3").2.2.2.1 (by decide)
